import Mathlib

/-!
Verification development for the youtube-karaoke backend.

Shallow embedding conventions:
* Python floats (timestamps, scores) are modelled as `ℚ`; Python ints as `ℤ`/`ℕ`.
* Python strings are Lean `String`s; the handful of string primitives the code
  uses (`str.strip`, `str.lower`, the `in` substring operator, `str.endswith`,
  slicing off the last character) are defined below over the underlying
  character list, mirroring Python semantics (ASCII case folding suffices for
  the constant keywords the code compares against).
* `list.sort` / `sorted` in Python is a stable sort; for a total preorder the
  stable-sorted permutation of a list is unique, so it is modelled by the
  structural stable insertion sort `pySort` below (extensionally equal).
* Python `round` is round-half-to-even; it is modelled by `pythonRound`.
* External library calls (difflib ratios, rapidfuzz WRatio, text
  normalisation built on regexes/unicodedata) are taken as function
  parameters; all theorems hold for every choice of these functions.
-/

/-- Python `str.strip()` - remove leading and trailing whitespace. -/
def pyStrip (s : String) : String :=
  ⟨(s.data.dropWhile Char.isWhitespace).reverse.dropWhile Char.isWhitespace |>.reverse⟩

/-- Python `str.lower()` (ASCII case folding). -/
def pyLower (s : String) : String :=
  ⟨s.data.map Char.toLower⟩

/-- Helper for `pyIn`: does `sub` occur as a contiguous sublist of `hay`? -/
def listContainsSub (hay sub : List Char) : Bool :=
  sub.isPrefixOf hay ||
    match hay with
    | [] => false
    | _ :: t => listContainsSub t sub

/-- Python `sub in s` for strings: substring containment. -/
def pyIn (sub s : String) : Bool :=
  listContainsSub s.data sub.data

/-- Python `s.endswith(suffix)`. -/
def pyEndsWith (s suffix : String) : Bool :=
  suffix.data.isSuffixOf s.data

/-- Python `s[:-1]` - drop the last character. -/
def pyDropLast (s : String) : String :=
  ⟨s.data.dropLast⟩

/-- Python `s[:n]` - keep the first `n` characters. -/
def pyTake (s : String) (n : ℕ) : String :=
  ⟨s.data.take n⟩

/-- Stable insertion step: insert `x` after every element `b` with `le b x`. -/
def pyInsort (le : α → α → Bool) (x : α) : List α → List α
  | [] => [x]
  | b :: l => if le b x then b :: pyInsort le x l else x :: b :: l

/-- Model of Python `list.sort`: a stable sort with respect to the boolean
preorder `le` (insert each element, left to right, after its equals). -/
def pySort (le : α → α → Bool) (l : List α) : List α :=
  l.foldl (fun acc x => pyInsort le x acc) []

theorem pyInsort_perm (le : α → α → Bool) (x : α) (l : List α) :
    (pyInsort le x l).Perm (x :: l) := by
  induction l with
  | nil => simp [pyInsort]
  | cons b t ih =>
    by_cases h : le b x = true
    · simpa [pyInsort, h] using ((ih.cons b).trans (List.Perm.swap x b t))
    · simp [pyInsort, h]

theorem pySort_perm (le : α → α → Bool) (l : List α) : (pySort le l).Perm l := by
  suffices h : ∀ (l : List α) (acc : List α),
      (l.foldl (fun acc x => pyInsort le x acc) acc).Perm (acc ++ l) by
    simpa using h l []
  intro l
  induction l with
  | nil => intro acc; simp
  | cons x t ih =>
    intro acc
    refine (ih (pyInsort le x acc)).trans ?_
    exact (((pyInsort_perm le x acc).append_right t).trans List.perm_middle.symm)

theorem mem_pySort {le : α → α → Bool} {l : List α} {a : α} :
    a ∈ pySort le l ↔ a ∈ l :=
  (pySort_perm le l).mem_iff

theorem mem_pyInsort {le : α → α → Bool} {l : List α} {x a : α} :
    a ∈ pyInsort le x l ↔ a = x ∨ a ∈ l := by
  simpa using (pyInsort_perm le x l).mem_iff

theorem pyInsort_pairwise {le : α → α → Bool}
    (htrans : ∀ a b c, le a b = true → le b c = true → le a c = true)
    (htot : ∀ a b, le a b = true ∨ le b a = true)
    {l : List α} (x : α) (hl : l.Pairwise (fun a b => le a b = true)) :
    (pyInsort le x l).Pairwise (fun a b => le a b = true) := by
  induction l with
  | nil => simp [pyInsort]
  | cons b t ih =>
    rcases List.pairwise_cons.mp hl with ⟨hb, ht⟩
    by_cases h : le b x = true
    · rw [pyInsort, if_pos h]
      refine List.pairwise_cons.mpr ⟨?_, ih ht⟩
      intro y hy
      rcases mem_pyInsort.mp hy with rfl | hyt
      · exact h
      · exact hb y hyt
    · rw [pyInsort, if_neg h]
      have hxb : le x b = true := (htot x b).resolve_right (by simpa using h)
      refine List.pairwise_cons.mpr ⟨?_, hl⟩
      intro y hy
      rcases List.mem_cons.mp hy with rfl | hyt
      · exact hxb
      · exact htrans x b y hxb (hb y hyt)

theorem pySort_pairwise {le : α → α → Bool}
    (htrans : ∀ a b c, le a b = true → le b c = true → le a c = true)
    (htot : ∀ a b, le a b = true ∨ le b a = true) (l : List α) :
    (pySort le l).Pairwise (fun a b => le a b = true) := by
  suffices h : ∀ (l acc : List α), acc.Pairwise (fun a b => le a b = true) →
      (l.foldl (fun acc x => pyInsort le x acc) acc).Pairwise (fun a b => le a b = true) by
    exact h l [] (by simp)
  intro l
  induction l with
  | nil => intro acc hacc; simpa using hacc
  | cons x t ih =>
    intro acc hacc
    exact ih (pyInsort le x acc) (pyInsort_pairwise htrans htot x hacc)

/-- Python built-in `round` on a rational: round half to even. -/
def pythonRound (q : ℚ) : ℤ :=
  let f := ⌊q⌋
  let r := q - f
  if r < 1/2 then f
  else if 1/2 < r then f + 1
  else if f % 2 = 0 then f else f + 1

theorem pythonRound_ge (q : ℚ) : q - 1/2 ≤ (pythonRound q : ℚ) := by
  have h1 : (⌊q⌋ : ℚ) ≤ q := Int.floor_le q
  have h2 : q < ⌊q⌋ + 1 := Int.lt_floor_add_one q
  unfold pythonRound
  simp only []
  split_ifs <;> push_cast <;> linarith

theorem pythonRound_le (q : ℚ) : (pythonRound q : ℚ) ≤ q + 1/2 := by
  have h1 : (⌊q⌋ : ℚ) ≤ q := Int.floor_le q
  have h2 : q < ⌊q⌋ + 1 := Int.lt_floor_add_one q
  unfold pythonRound
  simp only []
  split_ifs <;> push_cast <;> linarith

theorem pythonRound_intCast (n : ℤ) : pythonRound (n : ℚ) = n := by
  unfold pythonRound
  norm_num

/-!
## backend/utils/progress_manager.py

`ProgressEntry` and `ThreadSafeProgressManager`. The manager state is the pair
of its two dictionaries: `_progress` (job id to entry) and `_tasks` (job id to
registered asyncio task, modelled as presence only). The lock makes each
method atomic, so methods are plain state transformers. `time.time()` values
are passed in as a `now` parameter. The `result` dict payload is modelled as
an `Option String` (the claims only distinguish null from non-null).
-/

namespace ProgressManager

structure ProgressEntry where
  progress : ℤ
  message : String
  result : Option String
  is_step_start : Bool
  created_at : ℚ
  updated_at : ℚ
deriving DecidableEq, Repr

structure ManagerState where
  progress : String → Option ProgressEntry
  tasks : String → Bool

/-- ThreadSafeProgressManager.set_progress (progress_manager.py lines 57-114). -/
def set_progress (st : ManagerState) (job_id : String) (progress : ℤ)
    (message : String) (result : Option String) (is_step_start : Bool)
    (now : ℚ) : ManagerState :=
  -- Skip if job doesn't exist and isn't being tracked
  if st.progress job_id = none ∧ st.tasks job_id = false then st
  else
    match st.progress job_id with
    | some current =>
      -- Skip if already completed successfully
      let is_already_final := 100 ≤ current.progress ∧ current.result ≠ none
      let is_error_override := pyIn "error" (pyLower message)
      if is_already_final ∧ is_error_override = false then st
      else
        -- Clamp progress
        let clamped := max 0 (min progress 100)
        -- Determine if update is needed (current is not None here)
        let should_update :=
          current.progress + 1 ≤ clamped ∨
          is_step_start = true ∨
          (clamped = 100 ∧ result ≠ none) ∨
          (clamped = 100 ∧ (pyIn "error" (pyLower message) = true ∨
                            pyIn "cancel" (pyLower message) = true)) ∨
          message ≠ current.message
        if should_update then
          let entry : ProgressEntry :=
            { progress := clamped
              message := message
              result := match result with
                        | some r => some r
                        | none => current.result
              is_step_start := is_step_start
              created_at := current.created_at
              updated_at := now }
          { st with progress := fun id => if id = job_id then some entry else st.progress id }
        else st
    | none =>
      -- current is None: should_update holds, a fresh entry is inserted
      let clamped := max 0 (min progress 100)
      let entry : ProgressEntry :=
        { progress := clamped
          message := message
          result := result
          is_step_start := is_step_start
          created_at := now
          updated_at := now }
      { st with progress := fun id => if id = job_id then some entry else st.progress id }

/-- Keywords that make an entry final for `kill_job`. -/
def KILL_FINAL_KEYWORDS : List String := ["error", "success", "cancel", "complete"]

/-- ThreadSafeProgressManager.kill_job (progress_manager.py lines 156-189).
The asyncio task's state is external input: `task_done` is `task.done()` and
`cancel_ok` is the return value of `task.cancel(...)`. Returns the new state
and the `cancelled` flag. -/
def kill_job (st : ManagerState) (job_id : String) (task_done : Bool)
    (cancel_ok : Bool) (now : ℚ) : ManagerState × Bool :=
  let had_task := st.tasks job_id
  let st1 : ManagerState :=
    { st with tasks := fun id => if id = job_id then false else st.tasks id }
  let cancelled := had_task && !task_done && cancel_ok
  match st.progress job_id with
  | some current =>
    let is_final := 100 ≤ current.progress ∨
      (KILL_FINAL_KEYWORDS.any fun kw => pyIn kw (pyLower current.message))
    if is_final then (st1, cancelled)
    else
      let entry : ProgressEntry :=
        { current with progress := 100
                       message := "Job cancelled by user."
                       updated_at := now }
      ({ st1 with progress := fun id => if id = job_id then some entry else st.progress id },
       cancelled)
  | none =>
    let entry : ProgressEntry :=
      { progress := 100
        message := "Job cancelled by user (task not found)."
        result := none
        is_step_start := false
        created_at := now
        updated_at := now }
    ({ st1 with progress := fun id => if id = job_id then some entry else st.progress id },
     cancelled)

end ProgressManager

/-- Concrete manager state with one terminal-success entry for job "j"
(progress 100, message "Done", non-null result). -/
def successState : ProgressManager.ManagerState :=
  ⟨fun id => if id = "j" then some ⟨100, "Done", some "r", false, 0, 0⟩ else none,
   fun _ => false⟩

/-- C1 counterexample: the entry of job "j" in `successState` is terminal
(progress 100 with a non-null result), yet a subsequent `set_progress` call
whose message contains "error" changes it: the stored message becomes the
error message. A successful job can mutate to a failed state, so the claimed
stability of terminal entries fails. -/
theorem C1_counterexample :
    (100 ≤ (⟨100, "Done", some "r", false, 0, 0⟩ : ProgressManager.ProgressEntry).progress ∧
      (⟨100, "Done", some "r", false, 0, 0⟩ : ProgressManager.ProgressEntry).result ≠ none) ∧
    (ProgressManager.set_progress successState "j" 100 "Processing error occurred"
        none false 1).progress "j" =
      some ⟨100, "Processing error occurred", some "r", false, 0, 1⟩ ∧
    (ProgressManager.set_progress successState "j" 100 "Processing error occurred"
        none false 1).progress "j" ≠ successState.progress "j" := by
  refine ⟨by decide, by decide, by decide⟩

/-- C1 amended: an entry with progress ≥ 100 is never changed by `kill_job`;
an entry that is a terminal success (progress ≥ 100 and non-null result) is
never changed by a `set_progress` call whose message does not contain
"error". (Error-message updates may still change a terminal-success entry,
and a terminal error/cancel entry with a null result can be changed by any
`set_progress` with a different message, as the counterexample shows.) -/
theorem C1_amended (st : ProgressManager.ManagerState) (job : String)
    (c : ProgressManager.ProgressEntry) (hc : st.progress job = some c)
    (h100 : 100 ≤ c.progress) :
    (∀ td co now, ((ProgressManager.kill_job st job td co now).1).progress job = some c) ∧
    (c.result ≠ none → ∀ p msg r iss now, pyIn "error" (pyLower msg) = false →
      ProgressManager.set_progress st job p msg r iss now = st) := by
  constructor
  · intro td co now
    unfold ProgressManager.kill_job
    rw [hc]
    simp only [h100, true_or, if_true]
    exact hc
  · intro hres p msg r iss now herr
    unfold ProgressManager.set_progress
    rw [hc]
    have hne : ¬(some c = none ∧ st.tasks job = false) := by simp
    rw [if_neg hne]
    simp only []
    rw [if_pos ⟨⟨h100, hres⟩, herr⟩]

/-- Witness for C1 amended at the concrete `successState`. -/
theorem C1_witness :
    (((ProgressManager.kill_job successState "j" false true 1).1).progress "j" =
      some ⟨100, "Done", some "r", false, 0, 0⟩) ∧
    ProgressManager.set_progress successState "j" 50 "halfway" none false 1 =
      successState := by
  have h := C1_amended successState "j" ⟨100, "Done", some "r", false, 0, 0⟩
    (by decide) (by decide)
  exact ⟨h.1 false true 1, h.2 (by decide) 50 "halfway" none false 1 (by decide)⟩

/-- C3 counterexample: after a terminal success (progress 100, non-null
result), a cancel update ("Job cancelled by user.", no "error" in the
message) is ignored: the state is returned unchanged and the stored message
stays "Done". The claim that error/cancel updates are accepted
unconditionally therefore fails for cancel updates. -/
theorem C3_counterexample :
    ProgressManager.set_progress successState "j" 100 "Job cancelled by user."
        none false 1 = successState ∧
    (successState.progress "j").map ProgressManager.ProgressEntry.message = some "Done" ∧
    pyIn "cancel" (pyLower "Job cancelled by user.") = true := by
  exact ⟨rfl, by decide, by decide⟩

/-- C3 amended: `set_progress` clamps every applied progress value into
[0,100]; it ignores updates after a terminal success unless the message
contains "error"; an error-message update with a new message is applied even
after a terminal success; and an update is suppressed as a duplicate when its
message equals the current one, its clamped progress does not exceed the
current progress, it is not a step start, and it is not a 100-with-result or
100-with-error/cancel update. -/
theorem C3_amended (st : ProgressManager.ManagerState) (job msg : String)
    (p : ℤ) (r : Option String) (iss : Bool) (now : ℚ) :
    ((ProgressManager.set_progress st job p msg r iss now).progress job = st.progress job ∨
      ∃ e', (ProgressManager.set_progress st job p msg r iss now).progress job = some e' ∧
        e'.progress = max 0 (min p 100) ∧ 0 ≤ e'.progress ∧ e'.progress ≤ 100) ∧
    (∀ c, st.progress job = some c →
      ((100 ≤ c.progress ∧ c.result ≠ none ∧ pyIn "error" (pyLower msg) = false →
          ProgressManager.set_progress st job p msg r iss now = st) ∧
       (pyIn "error" (pyLower msg) = true → msg ≠ c.message →
          (ProgressManager.set_progress st job p msg r iss now).progress job =
            some ⟨max 0 (min p 100), msg,
                  (match r with | some x => some x | none => c.result),
                  iss, c.created_at, now⟩) ∧
       (msg = c.message → max 0 (min p 100) ≤ c.progress → iss = false →
        ¬(max 0 (min p 100) = 100 ∧ r ≠ none) →
        ¬(max 0 (min p 100) = 100 ∧ (pyIn "error" (pyLower msg) = true ∨
                                     pyIn "cancel" (pyLower msg) = true)) →
          ProgressManager.set_progress st job p msg r iss now = st))) := by
  constructor
  · by_cases h0 : st.progress job = none ∧ st.tasks job = false
    · left; rw [ProgressManager.set_progress, if_pos h0]
    · rcases hcur : st.progress job with _ | c
      · right
        refine ⟨⟨max 0 (min p 100), msg, r, iss, now, now⟩, ?_, rfl, ?_, ?_⟩
        · rw [ProgressManager.set_progress, if_neg h0, hcur]
          simp
        · simp
        · simp
      · by_cases hskip : (100 ≤ c.progress ∧ c.result ≠ none) ∧
          pyIn "error" (pyLower msg) = false
        · left; rw [ProgressManager.set_progress, if_neg h0, hcur]
          simp only []
          rw [if_pos hskip]
          exact hcur
        · by_cases hupd : c.progress + 1 ≤ max 0 (min p 100) ∨ iss = true ∨
            (max 0 (min p 100) = 100 ∧ r ≠ none) ∨
            (max 0 (min p 100) = 100 ∧ (pyIn "error" (pyLower msg) = true ∨
              pyIn "cancel" (pyLower msg) = true)) ∨ msg ≠ c.message
          · right
            refine ⟨⟨max 0 (min p 100), msg,
                (match r with | some x => some x | none => c.result),
                iss, c.created_at, now⟩, ?_, rfl, ?_, ?_⟩
            · rw [ProgressManager.set_progress, if_neg h0, hcur]
              simp only []
              rw [if_neg hskip, if_pos hupd]
              simp
              cases r <;> simp
            · simp
            · simp
          · left
            rw [ProgressManager.set_progress, if_neg h0, hcur]
            simp only []
            rw [if_neg hskip, if_neg hupd]
            exact hcur
  · intro c hc
    refine ⟨?_, ?_, ?_⟩
    · intro ⟨h100, hres, herr⟩
      rw [ProgressManager.set_progress, if_neg (by simp [hc]), hc]
      simp only []
      rw [if_pos ⟨⟨h100, hres⟩, herr⟩]
    · intro herr hmsg
      rw [ProgressManager.set_progress, if_neg (by simp [hc]), hc]
      simp only []
      rw [if_neg (by simp [herr])]
      rw [if_pos (by tauto)]
      simp
    · intro hmsg hle hiss h100r h100e
      rw [ProgressManager.set_progress, if_neg (by simp [hc]), hc]
      simp only []
      by_cases hskip : (100 ≤ c.progress ∧ c.result ≠ none) ∧
        pyIn "error" (pyLower msg) = false
      · rw [if_pos hskip]
      · rw [if_neg hskip, if_neg ?_]
        push_neg
        refine ⟨by omega, by simpa using hiss, ?_, ?_, by simpa using hmsg⟩
        · intro h100; by_contra hr; exact h100r ⟨h100, hr⟩
        · intro h100; by_contra hr
          exact h100e ⟨h100, by tauto⟩

/-- Witness for C3 amended: the ignore clause applied to `successState` with a
non-error message, and the error-override clause applied with an error
message. -/
theorem C3_witness :
    ProgressManager.set_progress successState "j" 50 "working" none false 2 =
      successState ∧
    (ProgressManager.set_progress successState "j" 100 "fatal error" none false 2).progress
        "j" = some ⟨100, "fatal error", some "r", false, 0, 2⟩ := by
  constructor
  · exact (((C3_amended successState "j" "working" 50 none false 2).2
      ⟨100, "Done", some "r", false, 0, 0⟩ (by decide)).1) ⟨by decide, by decide, by decide⟩
  · exact (((C3_amended successState "j" "fatal error" 100 none false 2).2
      ⟨100, "Done", some "r", false, 0, 0⟩ (by decide)).2.1) (by decide) (by decide)

/-- C9: when a job id is in neither the progress map nor the task map,
`set_progress` returns the state unchanged - it creates no entry and changes
no entry of any other job. -/
theorem C9_set_progress_frame (st : ProgressManager.ManagerState) (job : String)
    (p : ℤ) (msg : String) (r : Option String) (iss : Bool) (now : ℚ)
    (hp : st.progress job = none) (ht : st.tasks job = false) :
    ProgressManager.set_progress st job p msg r iss now = st := by
  rw [ProgressManager.set_progress, if_pos ⟨hp, ht⟩]

/-- Witness for C9 on the empty manager state. -/
theorem C9_witness :
    ProgressManager.set_progress ⟨fun _ => none, fun _ => false⟩ "j" 40 "msg"
      none false 3 = ⟨fun _ => none, fun _ => false⟩ :=
  C9_set_progress_frame ⟨fun _ => none, fun _ => false⟩ "j" 40 "msg" none false 3
    rfl rfl

/-!
## backend/core/audio_analyzer.py

`KEY_NAMES` and `transpose_key`. Python's `%` on a positive modulus agrees
with `Int.emod`, and `KEY_NAMES.index` raising `ValueError` is modelled by
`List.indexOf?` returning `none`.
-/

namespace AudioAnalyzer

/-- Musical key names in chromatic order starting from C (split in two for
readability; the concatenation is the source's single list). -/
def KEY_NAMES : List String :=
  ["C", "C#", "D", "D#", "E", "F"] ++ ["F#", "G", "G#", "A", "A#", "B"]

/-- transpose_key (audio_analyzer.py lines 205-234). -/
def transpose_key (original : String) (semitones : ℤ) : Option String :=
  if original = "" ∨ semitones = 0 then
    if original = "" then none else some original
  else
    let is_minor := pyEndsWith original "m"
    let root := if is_minor then pyDropLast original else original
    match KEY_NAMES.indexOf? root with
    | none => none
    | some root_idx =>
      let new_idx := ((root_idx : ℤ) + semitones) % 12
      some (KEY_NAMES.getD new_idx.toNat "" ++ (if is_minor then "m" else ""))

/-- Format of a valid key: root note by chromatic index plus optional minor
suffix. -/
def fmtKey (idx : ℕ) (minor : Bool) : String :=
  KEY_NAMES.getD idx "" ++ (if minor then "m" else "")

/-- The twelve sharp-notation roots, each optionally suffixed with 'm'. -/
def validKeys : List String :=
  ["C", "C#", "D", "D#", "E", "F"] ++ ["F#", "G", "G#", "A", "A#", "B"] ++
  ["Cm", "C#m", "Dm", "D#m", "Em", "Fm"] ++ ["F#m", "Gm", "G#m", "Am", "A#m", "Bm"]

theorem fmtKey_ne_empty : ∀ j : Fin 12, ∀ b : Bool, fmtKey j.val b ≠ "" := by decide

theorem fmtKey_endsWith : ∀ j : Fin 12, ∀ b : Bool,
    pyEndsWith (fmtKey j.val b) "m" = b := by decide

theorem fmtKey_root : ∀ j : Fin 12, ∀ b : Bool,
    (if b then pyDropLast (fmtKey j.val b) else fmtKey j.val b) =
      KEY_NAMES.getD j.val "" := by decide

theorem fmtKey_indexOf : ∀ j : Fin 12,
    KEY_NAMES.indexOf? (KEY_NAMES.getD j.val "") = some j.val := by decide

/-- Computing `transpose_key` on a well-formed key, for a nonzero shift. -/
theorem transpose_key_fmt (j : Fin 12) (b : Bool) (n : ℤ) (hn : n ≠ 0) :
    transpose_key (fmtKey j.val b) n =
      some (fmtKey (((j.val : ℤ) + n) % 12).toNat b) := by
  rw [transpose_key, if_neg (by simp [fmtKey_ne_empty j b, hn])]
  simp only [fmtKey_endsWith j b, fmtKey_root j b, fmtKey_indexOf j]
  rfl

theorem mem_validKeys (k : String) (hk : k ∈ validKeys) :
    ∃ j : Fin 12, ∃ b : Bool, k = fmtKey j.val b := by
  simp only [validKeys, List.append_assoc, List.cons_append, List.nil_append] at hk
  fin_cases hk
  · exact ⟨⟨0, by omega⟩, false, by decide⟩
  · exact ⟨⟨1, by omega⟩, false, by decide⟩
  · exact ⟨⟨2, by omega⟩, false, by decide⟩
  · exact ⟨⟨3, by omega⟩, false, by decide⟩
  · exact ⟨⟨4, by omega⟩, false, by decide⟩
  · exact ⟨⟨5, by omega⟩, false, by decide⟩
  · exact ⟨⟨6, by omega⟩, false, by decide⟩
  · exact ⟨⟨7, by omega⟩, false, by decide⟩
  · exact ⟨⟨8, by omega⟩, false, by decide⟩
  · exact ⟨⟨9, by omega⟩, false, by decide⟩
  · exact ⟨⟨10, by omega⟩, false, by decide⟩
  · exact ⟨⟨11, by omega⟩, false, by decide⟩
  · exact ⟨⟨0, by omega⟩, true, by decide⟩
  · exact ⟨⟨1, by omega⟩, true, by decide⟩
  · exact ⟨⟨2, by omega⟩, true, by decide⟩
  · exact ⟨⟨3, by omega⟩, true, by decide⟩
  · exact ⟨⟨4, by omega⟩, true, by decide⟩
  · exact ⟨⟨5, by omega⟩, true, by decide⟩
  · exact ⟨⟨6, by omega⟩, true, by decide⟩
  · exact ⟨⟨7, by omega⟩, true, by decide⟩
  · exact ⟨⟨8, by omega⟩, true, by decide⟩
  · exact ⟨⟨9, by omega⟩, true, by decide⟩
  · exact ⟨⟨10, by omega⟩, true, by decide⟩
  · exact ⟨⟨11, by omega⟩, true, by decide⟩

end AudioAnalyzer

/-- C7: for every valid key (twelve sharp-notation roots, optional 'm'
suffix) and every n in [-24, 24], transposing by n and then by -n returns the
original key. -/
theorem C7_transpose_roundtrip (k : String) (hk : k ∈ AudioAnalyzer.validKeys)
    (n : ℤ) (h1 : -24 ≤ n) (h2 : n ≤ 24) :
    (AudioAnalyzer.transpose_key k n).bind
      (fun k2 => AudioAnalyzer.transpose_key k2 (-n)) = some k := by
  obtain ⟨j, b, rfl⟩ := AudioAnalyzer.mem_validKeys k hk
  by_cases hn : n = 0
  · subst hn
    have h0 : AudioAnalyzer.transpose_key (AudioAnalyzer.fmtKey j.val b) 0 =
        some (AudioAnalyzer.fmtKey j.val b) := by
      rw [AudioAnalyzer.transpose_key, if_pos (Or.inr rfl),
        if_neg (AudioAnalyzer.fmtKey_ne_empty j b)]
    rw [h0, Option.some_bind, neg_zero, h0]
  · have hj : j.val < 12 := j.isLt
    have hj' : (((j.val : ℤ) + n) % 12).toNat < 12 := by omega
    rw [AudioAnalyzer.transpose_key_fmt j b n hn, Option.some_bind,
      AudioAnalyzer.transpose_key_fmt ⟨_, hj'⟩ b (-n) (by omega)]
    congr 2
    simp only [Fin.val_mk]
    omega

/-- Witness for C7 at k = "G#m", n = 7. -/
theorem C7_witness :
    (AudioAnalyzer.transpose_key "G#m" 7).bind
      (fun k2 => AudioAnalyzer.transpose_key k2 (-7)) = some "G#m" :=
  C7_transpose_roundtrip "G#m" (by decide) 7 (by norm_num) (by norm_num)

/-- C10 counterexample: "Bb" has a flat root that is not in KEY_NAMES, yet
`transpose_key "Bb" 0` returns the input unchanged rather than None - the
semitones == 0 early return fires before any root validation. -/
theorem C10_counterexample :
    AudioAnalyzer.KEY_NAMES.indexOf? "Bb" = none ∧
    AudioAnalyzer.transpose_key "Bb" 0 = some "Bb" := by
  exact ⟨by decide, by decide⟩

/-- C10 amended: `transpose_key` returns None for every string whose parsed
root is not one of the twelve sharp-notation names provided the semitone
delta is nonzero, returns None for empty input, and returns its (non-empty)
input unchanged whenever the delta is 0 - even when the root is invalid. -/
theorem C10_amended :
    (∀ (s : String) (n : ℤ), n ≠ 0 →
      AudioAnalyzer.KEY_NAMES.indexOf?
        (if pyEndsWith s "m" then pyDropLast s else s) = none →
      AudioAnalyzer.transpose_key s n = none) ∧
    (∀ n : ℤ, AudioAnalyzer.transpose_key "" n = none) ∧
    (∀ s : String, s ≠ "" → AudioAnalyzer.transpose_key s 0 = some s) := by
  refine ⟨?_, ?_, ?_⟩
  · intro s n hn hroot
    by_cases hs : s = ""
    · subst hs
      rw [AudioAnalyzer.transpose_key, if_pos (Or.inl rfl), if_pos rfl]
    · rw [AudioAnalyzer.transpose_key, if_neg (by tauto)]
      simp only [hroot]
  · intro n
    by_cases hn : n = 0
    · subst hn
      rw [AudioAnalyzer.transpose_key, if_pos (Or.inr rfl), if_pos rfl]
    · rw [AudioAnalyzer.transpose_key, if_pos (Or.inl rfl), if_pos rfl]
  · intro s hs
    rw [AudioAnalyzer.transpose_key, if_pos (Or.inr rfl), if_neg hs]

/-- Witness for C10 amended: an invalid flat root with nonzero delta, the
empty string, and a zero delta on a valid minor key. -/
theorem C10_witness :
    AudioAnalyzer.transpose_key "Bbm" 3 = none ∧
    AudioAnalyzer.transpose_key "" 5 = none ∧
    AudioAnalyzer.transpose_key "D#m" 0 = some "D#m" :=
  ⟨C10_amended.1 "Bbm" 3 (by norm_num) (by decide),
   C10_amended.2.1 5,
   C10_amended.2.2 "D#m" (by decide)⟩

/-!
## backend/utils/version_tracker.py and backend/core/separator.py

Stems-cache validation and the cache decision of `separate_tracks`. The
relevant slice of the file system and environment is modelled as `FsState`:
the parsed stems section of `cache_metadata.json` (None when the file is
missing, unparsable, or has no stems section), the runtime Demucs version,
the input audio file's presence and SHA-256, the stems directory, and the
sizes of `instrumental.wav` / `vocals.wav` (None when not a file). In
`separate_tracks` the `video_id` / `demucs_model` / `processed_dir` /
`audio_path` arguments of `get_existing_stems` are always supplied, so the
version-aware branch is active and the audio-hash check is requested. The
Demucs subprocess itself is external: the sizes of the freshly written stems
are inputs. -/

namespace Separator

structure StemCacheMetadata where
  demucs_model : String
  demucs_version : String
  audio_hash : String
deriving DecidableEq, Repr

structure FsState where
  stems_metadata : Option StemCacheMetadata
  current_demucs_version : String
  audio_file_present : Bool
  audio_hash : String
  stems_dir_present : Bool
  instrumental_size : Option ℕ
  vocals_size : Option ℕ
deriving DecidableEq, Repr

/-- is_stems_cache_valid (version_tracker.py lines 240-289). `check_audio`
is whether an `audio_path` argument was supplied. -/
def is_stems_cache_valid (st : FsState) (expected_model : String)
    (check_audio : Bool) : Bool :=
  match st.stems_metadata with
  | none => false
  | some stems_meta =>
    if stems_meta.demucs_model ≠ expected_model then false
    else if stems_meta.demucs_version ≠ st.current_demucs_version then false
    else if check_audio = true ∧ st.audio_file_present = true then
      if stems_meta.audio_hash ≠ st.audio_hash then false else true
    else true

/-- get_existing_stems (separator.py lines 312-360), called with all
optional arguments supplied; returns whether the cached stem paths were
returned (as opposed to (None, None)). -/
def get_existing_stems (st : FsState) (demucs_model : String) : Bool :=
  if st.stems_dir_present = false then false
  else if is_stems_cache_valid st demucs_model true = false then false
  else
    let instrumental_ok := match st.instrumental_size with
      | some n => if 1024 < n then true else false
      | none => false
    let vocals_ok := match st.vocals_size with
      | some n => if 1024 < n then true else false
      | none => false
    instrumental_ok && vocals_ok

/-- update_stems_cache_metadata (version_tracker.py lines 134-169): rewrites
the stems section with the current model, runtime version and audio hash. -/
def update_stems_cache_metadata (st : FsState) (demucs_model : String)
    (audio_hash : String) : FsState :=
  { st with stems_metadata := some ⟨demucs_model, st.current_demucs_version, audio_hash⟩ }

/-- separate_tracks (separator.py lines 29-98), reduced to its cache
decision: after `mkdir` on the stems directory, return the cached stems
when `get_existing_stems` succeeds; otherwise run Demucs (writing fresh
stems of the given sizes) and rewrite the cache metadata. The boolean is
"returned cached stems without invoking the separator subprocess". -/
def separate_tracks (st : FsState) (demucs_model : String)
    (new_inst_size new_voc_size : ℕ) : Bool × FsState :=
  let st0 := { st with stems_dir_present := true }
  if get_existing_stems st0 demucs_model then (true, st0)
  else
    let st1 := { st0 with instrumental_size := some new_inst_size,
                          vocals_size := some new_voc_size }
    (false, update_stems_cache_metadata st1 demucs_model st1.audio_hash)

end Separator

/-- C4 counterexample: a state whose cache metadata matches the current
model, version and audio hash, and whose stem files are present with size
exactly 1 KiB (1024 bytes - "at least 1 KiB" in the claim's terms), yet
`separate_tracks` does not use the cache: the code requires st_size > 1024. -/
theorem C4_counterexample :
    (let st : Separator.FsState :=
      ⟨some ⟨"htdemucs", "4.0.0", "h"⟩, "4.0.0", true, "h", true,
        some 1024, some 1024⟩
     st.stems_metadata = some ⟨"htdemucs", "4.0.0", "h"⟩ ∧
     st.current_demucs_version = "4.0.0" ∧ st.audio_hash = "h" ∧
     st.instrumental_size = some 1024 ∧ st.vocals_size = some 1024 ∧
     1024 ≤ 1024 ∧
     (Separator.separate_tracks st "htdemucs" 4096 4096).1 = false) := by
  refine ⟨rfl, rfl, rfl, rfl, rfl, le_refl _, by decide⟩

/-- C4 amended: assuming the supplied audio file exists, `separate_tracks`
returns the cached stems without invoking the separator exactly when the
recorded model equals the current model, the recorded library version equals
the runtime version, the recorded audio SHA-256 matches the file's hash, and
both instrumental.wav and vocals.wav exist with size strictly greater than
1024 bytes; on any mismatch it recomputes and rewrites the metadata with the
current model, version and hash. -/
theorem C4_amended (st : Separator.FsState) (model : String)
    (ni nv : ℕ) (haudio : st.audio_file_present = true) :
    ((Separator.separate_tracks st model ni nv).1 = true ↔
      ∃ m, st.stems_metadata = some m ∧ m.demucs_model = model ∧
        m.demucs_version = st.current_demucs_version ∧
        m.audio_hash = st.audio_hash ∧
        (∃ i, st.instrumental_size = some i ∧ 1024 < i) ∧
        (∃ v, st.vocals_size = some v ∧ 1024 < v)) ∧
    ((Separator.separate_tracks st model ni nv).1 = false →
      (Separator.separate_tracks st model ni nv).2.stems_metadata =
        some ⟨model, st.current_demucs_version, st.audio_hash⟩) := by
  constructor
  · obtain ⟨meta, ver, afp, ah, sdp, isz, vsz⟩ := st
    subst haudio
    rcases meta with _ | m
    · simp [Separator.separate_tracks, Separator.get_existing_stems,
        Separator.is_stems_cache_valid]
    · obtain ⟨mm, mv, mh⟩ := m
      by_cases h1 : mm = model
      · by_cases h2 : mv = ver
        · by_cases h3 : mh = ah
          · subst h1; subst h2; subst h3
            rcases isz with _ | i <;> rcases vsz with _ | v
            · simp [Separator.separate_tracks, Separator.get_existing_stems,
                Separator.is_stems_cache_valid]
            · simp [Separator.separate_tracks, Separator.get_existing_stems,
                Separator.is_stems_cache_valid]
            · simp [Separator.separate_tracks, Separator.get_existing_stems,
                Separator.is_stems_cache_valid]
            · by_cases hi : 1024 < i <;> by_cases hv : 1024 < v <;>
                simp [Separator.separate_tracks, Separator.get_existing_stems,
                  Separator.is_stems_cache_valid, hi, hv]
          · simp [Separator.separate_tracks, Separator.get_existing_stems,
              Separator.is_stems_cache_valid, h1, h2, h3]
        · simp [Separator.separate_tracks, Separator.get_existing_stems,
            Separator.is_stems_cache_valid, h1, h2]
      · simp [Separator.separate_tracks, Separator.get_existing_stems,
          Separator.is_stems_cache_valid, h1]
  · intro hmiss
    by_cases h : Separator.get_existing_stems
        { st with stems_dir_present := true } model = true
    · rw [Separator.separate_tracks] at hmiss
      rw [if_pos h] at hmiss
      exact absurd hmiss (by simp)
    · rw [Separator.separate_tracks, if_neg h]
      rfl

/-- Witness for C4 amended: a fully matching cache state with 2000-byte
stems is served from cache. -/
theorem C4_witness :
    (Separator.separate_tracks
      ⟨some ⟨"htdemucs", "4.0.0", "h"⟩, "4.0.0", true, "h", true,
        some 2000, some 2000⟩ "htdemucs" 4096 4096).1 = true :=
  (C4_amended ⟨some ⟨"htdemucs", "4.0.0", "h"⟩, "4.0.0", true, "h", true,
      some 2000, some 2000⟩ "htdemucs" 4096 4096 rfl).1.mpr
    ⟨⟨"htdemucs", "4.0.0", "h"⟩, rfl, rfl, rfl, rfl,
      ⟨2000, rfl, by norm_num⟩, ⟨2000, rfl, by norm_num⟩⟩

/-!
## Karaoke segments and words

Shared shape of the segment dictionaries flowing between
`lyrics_processing.py` and `core/subtitles.py`. `endTime` models the Python
dict key "end" (a Lean reserved word); `aligned` and `confidence` are the
extra keys the alignment path adds.
-/

structure Word where
  text : String
  start : ℚ
  endTime : ℚ
deriving DecidableEq, Repr, Inhabited

structure Seg where
  start : ℚ
  endTime : ℚ
  text : String
  words : List Word
  aligned : Bool := false
  confidence : Option ℚ := none
deriving DecidableEq, Repr, Inhabited

/-!
## backend/core/subtitles.py

Timing constants and the event generation of `_generate_ass_file_sync`. The
produced `[Events]` section is modelled as a list of `Event` records plus the
`renderEvent` serialisation into `Dialogue:` lines; the header template is
not modelled (no claim concerns it).
-/

namespace Subtitles

def SUBTITLE_LEAD_TIME_SECONDS : ℚ := 2/5
def SUBTITLE_PERSIST_SECONDS : ℚ := 3/4
def MIN_LINE_DURATION_SECONDS : ℚ := 6/5
def MIN_K_DURATION_CS : ℤ := 8
def MAX_K_DURATION_CS : ℤ := 300
def GAP_THRESHOLD_FOR_CUES : ℚ := 5
def COUNTDOWN_TOTAL_DURATION : ℚ := 3
def LYRIC_PREP_LEAD_TIME : ℚ := 3/2
def COUNTDOWN_STEP_DURATION : ℚ := 1

/-- Zero-padded two-digit field of an f-string (`{n:02d}`, `n` < 100 here). -/
def pad2 (n : ℤ) : String :=
  if n < 10 then "0" ++ toString n else toString n

/-- format_ass_time (subtitles.py lines 47-57). Python `//` agrees with
`Int./` on the non-negative values produced here. -/
def format_ass_time (seconds : ℚ) : String :=
  let s := if seconds < 0 then (0 : ℚ) else seconds
  let total_centiseconds := pythonRound (s * 100)
  let centiseconds := total_centiseconds % 100
  let total_seconds := total_centiseconds / 100
  let secs := total_seconds % 60
  let total_minutes := total_seconds / 60
  let mins := total_minutes % 60
  let hours := total_minutes / 60
  toString hours ++ ":" ++ pad2 mins ++ ":" ++ pad2 secs ++ "." ++ pad2 centiseconds

/-- escape_ass_text (subtitles.py lines 60-69): backslash-escape the two
brace characters. -/
def escape_ass_text (text : String) : String :=
  ⟨text.data.flatMap fun c =>
    if c = '\x7b' then ['\\', '\x7b']
    else if c = '\x7d' then ['\\', '\x7d']
    else [c]⟩

/-- Karaoke tag duration of one word in centiseconds (subtitles.py lines
267-270): duration floored at 0.01 s, rounded to centiseconds, clamped to
[MIN_K_DURATION_CS, MAX_K_DURATION_CS]. -/
def k_duration_cs (w : Word) : ℤ :=
  max MIN_K_DURATION_CS
    (min (pythonRound (max (1/100 : ℚ) (w.endTime - w.start) * 100)) MAX_K_DURATION_CS)

/-- Claimed clamp, written from the spec sentence "value = word duration in
centiseconds, clamped [5, 350]" - for comparison with `k_duration_cs`. -/
def spec_k_duration_cs (w : Word) : ℤ :=
  max 5 (min (pythonRound ((w.endTime - w.start) * 100)) 350)

/-- One per-word chunk of the event text: the inline karaoke directive
followed by the (space-separated, escaped) word. -/
def mkKPart (i : ℕ) (parts : List String) (w : Word) : String :=
  let space_sep := if 0 < i ∧ parts ≠ [] then " " else ""
  "\x7b\\k" ++ toString (k_duration_cs w) ++ "\x7d" ++ space_sep ++
    escape_ass_text (pyStrip w.text)

/-- The word loop of the main lyric event (subtitles.py lines 251-275):
`i` is the `enumerate` index, `parts` the accumulated chunks. -/
def buildLinePartsGo : List Word → ℕ → List String → List String
  | [], _, parts => parts
  | w :: ws, i, parts =>
    if pyStrip w.text = "" ∨ w.endTime < w.start then buildLinePartsGo ws (i + 1) parts
    else buildLinePartsGo ws (i + 1) (parts ++ [mkKPart i parts w])

def buildLineParts (words : List Word) : List String :=
  buildLinePartsGo words 0 []

structure Event where
  layer : ℕ
  startT : ℚ
  endT : ℚ
  style : String
  text : String
deriving DecidableEq, Repr

/-- Serialisation of an event into its `Dialogue:` line (Name and margins
are constant in the source). -/
def renderEvent (e : Event) : String :=
  "Dialogue: " ++ toString e.layer ++ "," ++ format_ass_time e.startT ++ "," ++
    format_ass_time e.endT ++ "," ++ e.style ++ ",,0,0,0,," ++ e.text

/-- Truncation of the "Next Up" preview text (subtitles.py lines 225-228). -/
def pyTruncate80 (t : String) : String :=
  pyTake t 80 ++ (if 80 < t.data.length then "..." else "")

/-- Advance cues for one segment: the "Next Up" preview and the 3-2-1
countdown (subtitles.py lines 217-242). Only called when the gap threshold
is met. -/
def cueEvents (last_segment_end_time : ℚ) (seg : Seg) : List Event :=
  let next_up_start_time :=
    max (last_segment_end_time + 1/10)
      (seg.start - COUNTDOWN_TOTAL_DURATION - LYRIC_PREP_LEAD_TIME)
  let next_up_end_time :=
    max (next_up_start_time + 1/2) (seg.start - COUNTDOWN_TOTAL_DURATION - 1/10)
  let nextUp : List Event :=
    if next_up_start_time < next_up_end_time then
      [⟨1, next_up_start_time, next_up_end_time, "NextUp",
        escape_ass_text (pyTruncate80 seg.text)⟩]
    else []
  let countdown : List Event :=
    ([3, 2, 1] : List ℕ).filterMap fun countdown_val =>
      let countdown_start_time :=
        max next_up_end_time (seg.start - (countdown_val : ℚ) * COUNTDOWN_STEP_DURATION)
      let countdown_end_time :=
        seg.start - ((countdown_val : ℚ) - 1) * COUNTDOWN_STEP_DURATION - 1/20
      if countdown_start_time < countdown_end_time then
        some ⟨2, countdown_start_time, countdown_end_time, "Countdown",
          toString countdown_val⟩
      else none
  nextUp ++ countdown

/-- Events contributed by one (non-skipped) segment: advance cues when the
silent gap reaches the threshold, then the main lyric line event
(subtitles.py lines 214-281). -/
def segmentEvents (last_segment_end_time : ℚ) (seg : Seg) : List Event :=
  let cues :=
    if GAP_THRESHOLD_FOR_CUES ≤ seg.start - last_segment_end_time then
      cueEvents last_segment_end_time seg
    else []
  let display_start_time := max 0 (seg.start - SUBTITLE_LEAD_TIME_SECONDS)
  let display_end_time :=
    max (seg.endTime + SUBTITLE_PERSIST_SECONDS)
      (display_start_time + MIN_LINE_DURATION_SECONDS)
  let parts := buildLineParts seg.words
  cues ++
    (if parts ≠ [] then
      [⟨0, display_start_time, display_end_time, "Default", String.join parts⟩]
    else [])

/-- The main loop of `_generate_ass_file_sync` over the segments, threading
`last_segment_end_time` (initially 0.0; a skipped segment does not advance
it). -/
def genEventsFrom (last_segment_end_time : ℚ) : List Seg → List Event
  | [] => []
  | seg :: rest =>
    if seg.endTime ≤ seg.start ∨ seg.words = [] then
      genEventsFrom last_segment_end_time rest
    else
      segmentEvents last_segment_end_time seg ++ genEventsFrom seg.endTime rest

/-- The `Dialogue:` lines written to the file, in order. -/
def event_lines (karaoke_segments : List Seg) : List String :=
  (genEventsFrom 0 karaoke_segments).map renderEvent

end Subtitles

namespace Subtitles

theorem go_all_valid (ws : List Word) :
    ∀ (i : ℕ) (parts : List String),
    (∀ w ∈ ws, pyStrip w.text ≠ "" ∧ w.start ≤ w.endTime) →
    0 < i → parts ≠ [] →
    buildLinePartsGo ws i parts = parts ++ ws.map (fun w =>
      "\x7b\\k" ++ toString (k_duration_cs w) ++ "\x7d" ++ " " ++
        escape_ass_text (pyStrip w.text)) := by
  induction ws with
  | nil => intro i parts _ _ _; simp [buildLinePartsGo]
  | cons w t ih =>
    intro i parts hv hi hp
    have hw := hv w (by simp)
    rw [buildLinePartsGo, if_neg (by push_neg; exact ⟨hw.1, by linarith [hw.2]⟩)]
    rw [ih (i + 1) _ (fun x hx => hv x (by simp [hx])) (by omega) (by simp)]
    rw [mkKPart, if_pos ⟨hi, hp⟩]
    simp

theorem mapIdx_congr_const {α β : Type} :
    ∀ (l : List α) (f : ℕ → α → β) (g : α → β),
    (∀ i a, f i a = g a) → l.mapIdx f = l.map g := by
  intro l
  induction l with
  | nil => intro f g h; simp
  | cons x t ih =>
    intro f g h
    rw [List.mapIdx_cons, h, ih _ g (fun i a => h (i + 1) a), List.map_cons]

theorem kdur_eq (w : Word) (hse : w.start ≤ w.endTime) :
    k_duration_cs w =
      max MIN_K_DURATION_CS
        (min (pythonRound ((w.endTime - w.start) * 100)) MAX_K_DURATION_CS) := by
  by_cases hc : (1 : ℚ)/100 ≤ w.endTime - w.start
  · rw [k_duration_cs, max_eq_right hc]
  · push_neg at hc
    have hd0 : 0 ≤ w.endTime - w.start := by linarith
    rw [k_duration_cs, max_eq_left (le_of_lt hc)]
    have h1 : pythonRound ((1 : ℚ)/100 * 100) = 1 := by
      norm_num
      exact_mod_cast pythonRound_intCast 1
    have hub := pythonRound_le ((w.endTime - w.start) * 100)
    have hub2 : pythonRound ((w.endTime - w.start) * 100) < 2 := by
      have h2 : (pythonRound ((w.endTime - w.start) * 100) : ℚ) < 2 := by nlinarith
      exact_mod_cast h2
    rw [h1, MIN_K_DURATION_CS, MAX_K_DURATION_CS]
    omega

end Subtitles

/-- C5 amended: for a validated word list (non-blank text, end ≥ start), the
emitter produces exactly one text chunk per word, each consisting of exactly
one inline karaoke directive followed by the (space-separated, escaped)
word, and the directive's value is the word's duration in centiseconds
(floored at 0.01 s) clamped to [8, 300] - not [5, 350] as claimed. -/
theorem C5_amended (words : List Word)
    (hv : ∀ w ∈ words, pyStrip w.text ≠ "" ∧ w.start ≤ w.endTime) :
    Subtitles.buildLineParts words = words.mapIdx (fun i w =>
      "\x7b\\k" ++ toString (Subtitles.k_duration_cs w) ++ "\x7d" ++
        (if i = 0 then "" else " ") ++ Subtitles.escape_ass_text (pyStrip w.text)) ∧
    ∀ w ∈ words, Subtitles.k_duration_cs w =
      max Subtitles.MIN_K_DURATION_CS
        (min (pythonRound ((w.endTime - w.start) * 100))
          Subtitles.MAX_K_DURATION_CS) := by
  constructor
  · cases words with
    | nil => simp [Subtitles.buildLineParts, Subtitles.buildLinePartsGo]
    | cons w t =>
      have hw := hv w (by simp)
      rw [Subtitles.buildLineParts, Subtitles.buildLinePartsGo,
        if_neg (by push_neg; exact ⟨hw.1, by linarith [hw.2]⟩)]
      rw [Subtitles.go_all_valid t 1 _ (fun x hx => hv x (by simp [hx]))
        one_pos (by simp)]
      rw [List.mapIdx_cons]
      rw [Subtitles.mkKPart, if_neg (by simp)]
      simp only [List.nil_append, List.singleton_append, List.cons.injEq]
      constructor
      · simp
      · exact (Subtitles.mapIdx_congr_const t _ _ (fun i a => by simp)).symm
  · intro w hw
    exact Subtitles.kdur_eq w (hv w hw).2

/-- Witness for C5 amended on two one-second words. -/
theorem C5_witness :
    Subtitles.buildLineParts [⟨"hello", 0, 1⟩, ⟨"world", 1, 2⟩] =
      ([⟨"hello", 0, 1⟩, ⟨"world", 1, 2⟩] : List Word).mapIdx (fun i w =>
        "\x7b\\k" ++ toString (Subtitles.k_duration_cs w) ++ "\x7d" ++
          (if i = 0 then "" else " ") ++
          Subtitles.escape_ass_text (pyStrip w.text)) :=
  (C5_amended [⟨"hello", 0, 1⟩, ⟨"world", 1, 2⟩]
    (by intro w hw; fin_cases hw <;> exact ⟨by decide, by norm_num⟩)).1

/-- C5 counterexample: a word of duration 0.04 s is emitted with directive
value 8 (the code clamps to [8, 300]), while the claimed clamp to [5, 350]
would give 5. -/
theorem C5_counterexample :
    Subtitles.buildLineParts [⟨"a", 0, 1/25⟩] = ["\x7b\\k8\x7da"] ∧
    Subtitles.spec_k_duration_cs ⟨"a", 0, 1/25⟩ = 5 ∧ (8 : ℤ) ≠ 5 := by
  have hk : Subtitles.k_duration_cs ⟨"a", 0, 1/25⟩ = 8 := by
    rw [Subtitles.k_duration_cs, Subtitles.MIN_K_DURATION_CS,
      Subtitles.MAX_K_DURATION_CS]
    norm_num [max_def, min_def, pythonRound]
  refine ⟨?_, ?_, by norm_num⟩
  · rw [Subtitles.buildLineParts, Subtitles.buildLinePartsGo,
      if_neg (by push_neg; exact ⟨by decide, by norm_num⟩),
      Subtitles.buildLinePartsGo]
    simp only [List.nil_append, Subtitles.mkKPart, hk]
    decide
  · rw [Subtitles.spec_k_duration_cs]
    norm_num [max_def, min_def, pythonRound]

theorem genEventsFrom_append (l1 : List Seg) :
    ∀ (last : ℚ) (rest : List Seg), ∃ pre last2,
      Subtitles.genEventsFrom last (l1 ++ rest) =
        pre ++ Subtitles.genEventsFrom last2 rest := by
  induction l1 with
  | nil => intro last rest; exact ⟨[], last, rfl⟩
  | cons s t ih =>
    intro last rest
    by_cases hs : s.endTime ≤ s.start ∨ s.words = []
    · obtain ⟨pre, last2, h⟩ := ih last rest
      exact ⟨pre, last2, by rw [List.cons_append, Subtitles.genEventsFrom, if_pos hs, h]⟩
    · obtain ⟨pre, last2, h⟩ := ih s.endTime rest
      refine ⟨Subtitles.segmentEvents last s ++ pre, last2, ?_⟩
      rw [List.cons_append, Subtitles.genEventsFrom, if_neg hs, h, List.append_assoc]

theorem cue_events_of_gap (last : ℚ) (seg : Seg)
    (hgap : 5 ≤ seg.start - last) :
    Subtitles.cueEvents last seg =
      [⟨1, seg.start - 9/2, seg.start - 31/10, "NextUp",
          Subtitles.escape_ass_text (Subtitles.pyTruncate80 seg.text)⟩,
       ⟨2, seg.start - 3, seg.start - 41/20, "Countdown", "3"⟩,
       ⟨2, seg.start - 2, seg.start - 21/20, "Countdown", "2"⟩,
       ⟨2, seg.start - 1, seg.start - 1/20, "Countdown", "1"⟩] := by
  rw [Subtitles.cueEvents]
  simp only [Subtitles.COUNTDOWN_TOTAL_DURATION, Subtitles.LYRIC_PREP_LEAD_TIME,
    Subtitles.COUNTDOWN_STEP_DURATION]
  have hA : max (last + 1/10) (seg.start - 3 - 3/2) = seg.start - 9/2 := by
    rw [max_eq_right (by linarith)]; ring
  rw [hA]
  have hB : max (seg.start - 9/2 + 1/2) (seg.start - 3 - 1/10) = seg.start - 31/10 := by
    rw [max_eq_right (by linarith)]; ring
  rw [hB]
  rw [if_pos (by linarith)]
  simp only [List.filterMap]
  norm_num
  have h3 : max (seg.start - 31/10) (seg.start - 3) = seg.start - 3 :=
    max_eq_right (by linarith)
  have h2 : max (seg.start - 31/10) (seg.start - 2) = seg.start - 2 :=
    max_eq_right (by linarith)
  have h1 : max (seg.start - 31/10) (seg.start - 1) = seg.start - 1 :=
    max_eq_right (by linarith)
  rw [h3, h2, h1]
  rw [if_pos (⟨by linarith, by linarith⟩ : _ ∧ _),
    if_pos (⟨by linarith, by linarith⟩ : _ ∧ _)]
  norm_num
  exact ⟨⟨by ring, by decide⟩, ⟨by ring, by decide⟩, by decide⟩

/-- C6 amended: when two consecutive emitted segments are separated by a
silent stretch of at least 5 seconds (not 4 as claimed), the emitter inserts
a "Next Up" preview event showing the later segment's (escaped, truncated)
text from 4.5 s to 3.1 s before it starts, and a 3-2-1 countdown of three
events of 0.95 s each, the last ending 0.05 s before the segment starts. -/
theorem C6_amended (l1 l2 : List Seg) (s1 s2 : Seg)
    (h1 : ¬(s1.endTime ≤ s1.start ∨ s1.words = []))
    (h2 : ¬(s2.endTime ≤ s2.start ∨ s2.words = []))
    (hgap : 5 ≤ s2.start - s1.endTime) :
    (⟨1, s2.start - 9/2, s2.start - 31/10, "NextUp",
      Subtitles.escape_ass_text (Subtitles.pyTruncate80 s2.text)⟩ : Subtitles.Event) ∈
      Subtitles.genEventsFrom 0 (l1 ++ s1 :: s2 :: l2) ∧
    (⟨2, s2.start - 3, s2.start - 41/20, "Countdown", "3"⟩ : Subtitles.Event) ∈
      Subtitles.genEventsFrom 0 (l1 ++ s1 :: s2 :: l2) ∧
    (⟨2, s2.start - 2, s2.start - 21/20, "Countdown", "2"⟩ : Subtitles.Event) ∈
      Subtitles.genEventsFrom 0 (l1 ++ s1 :: s2 :: l2) ∧
    (⟨2, s2.start - 1, s2.start - 1/20, "Countdown", "1"⟩ : Subtitles.Event) ∈
      Subtitles.genEventsFrom 0 (l1 ++ s1 :: s2 :: l2) := by
  obtain ⟨pre, last2, hpre⟩ := genEventsFrom_append l1 0 (s1 :: s2 :: l2)
  rw [hpre, Subtitles.genEventsFrom, if_neg h1, Subtitles.genEventsFrom, if_neg h2]
  have hseg : ∀ e ∈ ([⟨1, s2.start - 9/2, s2.start - 31/10, "NextUp",
        Subtitles.escape_ass_text (Subtitles.pyTruncate80 s2.text)⟩,
      ⟨2, s2.start - 3, s2.start - 41/20, "Countdown", "3"⟩,
      ⟨2, s2.start - 2, s2.start - 21/20, "Countdown", "2"⟩,
      ⟨2, s2.start - 1, s2.start - 1/20, "Countdown", "1"⟩] : List Subtitles.Event),
      e ∈ Subtitles.segmentEvents s1.endTime s2 := by
    intro e he
    rw [Subtitles.segmentEvents]
    simp only [Subtitles.GAP_THRESHOLD_FOR_CUES]
    rw [if_pos hgap, cue_events_of_gap s1.endTime s2 hgap]
    exact List.mem_append.mpr (Or.inl he)
  refine ⟨?_, ?_, ?_, ?_⟩ <;>
  · refine List.mem_append.mpr (Or.inr (List.mem_append.mpr (Or.inr
      (List.mem_append.mpr (Or.inl (hseg _ ?_))))))
    simp

/-- Witness for C6 amended: a 5-second silent gap between two one-word
segments produces the preview and the full countdown. -/
theorem C6_witness :
    (⟨1, (6:ℚ) - 9/2, (6:ℚ) - 31/10, "NextUp",
      Subtitles.escape_ass_text (Subtitles.pyTruncate80 "line two")⟩ : Subtitles.Event) ∈
      Subtitles.genEventsFrom 0 ([] ++ (⟨0, 1, "line one", [⟨"one", 0, 1⟩], false, none⟩ : Seg) ::
        (⟨6, 7, "line two", [⟨"two", 6, 7⟩], false, none⟩ : Seg) :: []) ∧
    (⟨2, (6:ℚ) - 3, (6:ℚ) - 41/20, "Countdown", "3"⟩ : Subtitles.Event) ∈
      Subtitles.genEventsFrom 0 ([] ++ (⟨0, 1, "line one", [⟨"one", 0, 1⟩], false, none⟩ : Seg) ::
        (⟨6, 7, "line two", [⟨"two", 6, 7⟩], false, none⟩ : Seg) :: []) ∧
    (⟨2, (6:ℚ) - 2, (6:ℚ) - 21/20, "Countdown", "2"⟩ : Subtitles.Event) ∈
      Subtitles.genEventsFrom 0 ([] ++ (⟨0, 1, "line one", [⟨"one", 0, 1⟩], false, none⟩ : Seg) ::
        (⟨6, 7, "line two", [⟨"two", 6, 7⟩], false, none⟩ : Seg) :: []) ∧
    (⟨2, (6:ℚ) - 1, (6:ℚ) - 1/20, "Countdown", "1"⟩ : Subtitles.Event) ∈
      Subtitles.genEventsFrom 0 ([] ++ (⟨0, 1, "line one", [⟨"one", 0, 1⟩], false, none⟩ : Seg) ::
        (⟨6, 7, "line two", [⟨"two", 6, 7⟩], false, none⟩ : Seg) :: []) :=
  C6_amended [] [] ⟨0, 1, "line one", [⟨"one", 0, 1⟩], false, none⟩
    ⟨6, 7, "line two", [⟨"two", 6, 7⟩], false, none⟩
    (by push_neg; exact ⟨by norm_num, by simp⟩)
    (by push_neg; exact ⟨by norm_num, by simp⟩)
    (by norm_num)

/-- C6 counterexample: two consecutive emitted segments separated by a
4-second silent stretch (which the claim says triggers the preview and
countdown) produce only Default-style lyric events - the code's threshold is
5 seconds. -/
theorem C6_counterexample :
    ((4:ℚ) ≤ (5:ℚ) - 1) ∧
    (Subtitles.genEventsFrom 0
      [⟨0, 1, "a", [⟨"a", 0, 1⟩], false, none⟩,
       ⟨5, 6, "b", [⟨"b", 5, 6⟩], false, none⟩]).all
      (fun e => e.style == "Default") = true := by
  constructor
  · norm_num
  · norm_num [Subtitles.genEventsFrom, Subtitles.segmentEvents,
      Subtitles.GAP_THRESHOLD_FOR_CUES, Subtitles.SUBTITLE_LEAD_TIME_SECONDS,
      Subtitles.SUBTITLE_PERSIST_SECONDS, Subtitles.MIN_LINE_DURATION_SECONDS,
      Subtitles.buildLineParts, Subtitles.buildLinePartsGo, Subtitles.mkKPart]

/-!
## backend/lyrics_processing.py

`prepare_segments_for_karaoke` (lines 125-332) and its helper
`_find_best_word_match` (difflib branch; the rapidfuzz branch performs the
same cutoff-maximisation through `process.extractOne`). The external text
machinery - `normalize_text` (regex + unicodedata), `split_text_into_words`
(regex; absent from the concatenated source revisions, only its newer
sibling `split_words` appears), difflib's `SequenceMatcher.ratio` and the
per-word similarity scorer - is bundled as the function parameters `TextFns`;
every theorem below holds for all choices of these functions, and the
alignment threshold `LYRICS_ALIGNMENT_THRESHOLD` (from settings) is likewise
a parameter.
-/

namespace LyricsProcessing

def WORD_MATCH_THRESHOLD : ℚ := 75

structure TextFns where
  normalize_text : String → String
  split_text_into_words : String → List String
  line_ratio : String → String → ℚ
  word_scorer : String → String → ℚ

/-- _find_best_word_match (lyrics_processing.py lines 87-123), difflib
branch: scan the unused whisper words, keep the strictly best score that
reaches WORD_MATCH_THRESHOLD; sentinel best index -1 means no match. -/
def _find_best_word_match (fns : TextFns) (official_word_norm : String)
    (whisper_words_with_indices : List (String × ℕ))
    (used_whisper_indices : List ℕ) : Option (ℕ × ℚ) :=
  let available_whisper := whisper_words_with_indices.filter
    (fun p => decide (p.2 ∉ used_whisper_indices))
  let best := available_whisper.foldl
    (fun (acc : ℚ × ℤ) p =>
      let ratio := fns.word_scorer p.1 official_word_norm * 100
      if WORD_MATCH_THRESHOLD ≤ ratio ∧ acc.1 < ratio then (ratio, (p.2 : ℤ))
      else acc)
    (-1, -1)
  if best.2 ≠ -1 then some (best.2.toNat, best.1) else none

/-- Word validation of step 1 (lines 143-154): keep words with non-blank
text and end ≥ start, with stripped text. -/
def validWordsOf (seg : Seg) : List Word :=
  seg.words.filterMap (fun w =>
    if pyStrip w.text ≠ "" ∧ w.start ≤ w.endTime then
      some { text := pyStrip w.text, start := w.start, endTime := w.endTime }
    else none)

/-- Segment validation of step 1 (lines 138-167): non-blank text, end ≥
start, at least one valid word; bounds snapped to the first/last valid
word. -/
def mkValidSeg (seg : Seg) : Option Seg :=
  if pyStrip seg.text = "" then none
  else
    match validWordsOf seg with
    | [] => none
    | w0 :: rest =>
      if seg.endTime < seg.start then none
      else some { start := w0.start,
                  endTime := ((w0 :: rest).getLast (List.cons_ne_nil w0 rest)).endTime,
                  text := pyStrip seg.text,
                  words := w0 :: rest }

def validSegments (recognized_segments : List Seg) : List Seg :=
  recognized_segments.filterMap mkValidSeg

/-- Comparison key of the `sort(key=lambda x: x.get('start', inf))` calls. -/
def byStart (a b : Seg) : Bool := decide (a.start ≤ b.start)

structure NormRec where
  norm_text : String
  original_segment_index : ℕ
  words_timed : List Word
  words_norm_idx : List (String × ℕ)
deriving DecidableEq

/-- Pre-normalisation of the recognized segments (lines 191-203). -/
def normRecognizedData (fns : TextFns) (validSegs : List Seg) : List NormRec :=
  validSegs.enum.filterMap (fun p =>
    let norm_text := fns.normalize_text p.2.text
    let whisper_words_norm_idx := (p.2.words.enum.map
        (fun q => (fns.normalize_text q.2.text, q.1))).filter (fun it => it.1 ≠ "")
    if norm_text ≠ "" ∧ whisper_words_norm_idx ≠ [] then
      some ⟨norm_text, p.1, p.2.words, whisper_words_norm_idx⟩
    else none)

/-- Best unused segment for an official line (lines 216-227): ratio must
reach the alignment threshold and strictly improve. -/
def bestSegMatch (fns : TextFns) (threshold : ℚ) (norm_data : List NormRec)
    (used : List ℕ) (normalized_official_line : String) : ℚ × Option NormRec :=
  norm_data.foldl (fun acc rec_data =>
    if rec_data.original_segment_index ∈ used then acc
    else
      let ratio := fns.line_ratio rec_data.norm_text normalized_official_line
      if threshold ≤ ratio ∧ acc.1 < ratio then (ratio, some rec_data) else acc)
    (-1, none)

/-- Python `round(x, 3)` used for the stored confidence. -/
def pythonRoundTo (q : ℚ) (n : ℕ) : ℚ :=
  (pythonRound (q * 10 ^ n) : ℚ) / 10 ^ n

/-- Per-line word timing (lines 242-280): each official word takes the
matched whisper word's times, or an estimated 0.35 s slot 0.05 s after the
running time; a word is kept only when end > start. -/
def alignLineWords (fns : TextFns) (official_words_pairs : List (String × String))
    (rec : NormRec) : List Word :=
  let init_time := match rec.words_timed with
    | [] => (0 : ℚ)
    | w :: _ => w.start
  (official_words_pairs.foldl (fun (acc : List Word × List ℕ × ℚ) pair =>
    match _find_best_word_match fns pair.2 rec.words_norm_idx acc.2.1 with
    | some (best_idx, _score) =>
      let w := rec.words_timed.getD best_idx default
      if w.start < w.endTime then
        (acc.1 ++ [⟨pair.1, w.start, w.endTime⟩], best_idx :: acc.2.1, w.endTime)
      else (acc.1, best_idx :: acc.2.1, w.endTime)
    | none =>
      let word_start := acc.2.2 + 1/20
      let word_end := word_start + 7/20
      if word_start < word_end then
        (acc.1 ++ [⟨pair.1, word_start, word_end⟩], acc.2.1, word_end)
      else (acc.1, acc.2.1, word_end)) ([], [], init_time)).1

/-- The alignment loop over official lines (lines 210-300), threading the
output segments and the used-segment set. -/
def alignOfficial (fns : TextFns) (threshold : ℚ) (norm_data : List NormRec)
    (official_lyrics : List String) : List Seg :=
  (official_lyrics.foldl (fun (acc : List Seg × List ℕ) official_line =>
    let official_line_cleaned := pyStrip official_line
    let normalized_official_line := fns.normalize_text official_line_cleaned
    if official_line_cleaned = "" ∨ normalized_official_line = "" then acc
    else
      match bestSegMatch fns threshold norm_data acc.2 normalized_official_line with
      | (_, none) => acc
      | (best_ratio, some rec) =>
        let official_words := fns.split_text_into_words official_line_cleaned
        let official_words_pairs := (official_words.map
            (fun w => (w, fns.normalize_text w))).filter (fun p => p.2 ≠ "")
        match alignLineWords fns official_words_pairs rec with
        | [] => acc
        | w0 :: rest =>
          let seg_end := ((w0 :: rest).getLast (List.cons_ne_nil w0 rest)).endTime
          let out : Seg :=
            { start := w0.start
              endTime := seg_end
              text := official_line_cleaned
              words := w0 :: rest
              aligned := true
              confidence := some (pythonRoundTo best_ratio 3) }
          if w0.start ≤ seg_end then (acc.1 ++ [out], rec.original_segment_index :: acc.2)
          else acc) ([], [])).1

/-- Final validation pass (lines 311-321): drop invalid words, require a
non-empty rest and end ≥ start, re-snap the bounds to first/last word. -/
def finalValidate (segs : List Seg) : List Seg :=
  segs.filterMap (fun seg =>
    match seg.words.filter (fun w => decide (w.start ≤ w.endTime)) with
    | [] => none
    | w0 :: rest =>
      let out : Seg :=
        { seg with start := w0.start
                   endTime := ((w0 :: rest).getLast (List.cons_ne_nil w0 rest)).endTime
                   words := w0 :: rest }
      if seg.endTime < seg.start then none else some out)

/-- prepare_segments_for_karaoke (lines 125-332). `official_lyrics = none`
and `some []` are both falsy in `if not official_lyrics`. -/
def prepare_segments_for_karaoke (fns : TextFns) (threshold : ℚ)
    (recognized_segments : List Seg)
    (official_lyrics : Option (List String)) : List Seg :=
  let valid := validSegments recognized_segments
  if valid = [] then []
  else
    match official_lyrics with
    | none => pySort byStart valid
    | some [] => pySort byStart valid
    | some lines =>
      let norm_data := normRecognizedData fns valid
      if norm_data = [] then valid
      else
        let aligned := alignOfficial fns threshold norm_data lines
        let final := finalValidate (pySort byStart aligned)
        if final = [] then pySort byStart valid
        else final

/-- The invariant of C2 that actually holds: non-empty word list, every word
has end ≥ start, segment bounds equal the first/last word's bounds. -/
def segOk (s : Seg) : Bool :=
  match s.words with
  | [] => false
  | w0 :: rest =>
    (w0 :: rest).all (fun w => decide (w.start ≤ w.endTime)) &&
    decide (s.start = w0.start) &&
    decide (s.endTime = ((w0 :: rest).getLast (List.cons_ne_nil w0 rest)).endTime)

end LyricsProcessing

namespace LyricsProcessing

theorem validWordsOf_le (seg : Seg) :
    ∀ w ∈ validWordsOf seg, w.start ≤ w.endTime := by
  intro w hw
  rw [validWordsOf] at hw
  rcases List.mem_filterMap.mp hw with ⟨w', _, hmk⟩
  split at hmk
  · rename_i hcond
    cases hmk
    exact hcond.2
  · cases hmk

theorem segOk_construct (s : Seg) (w0 : Word) (rest : List Word)
    (hwords : s.words = w0 :: rest)
    (hall : ∀ w ∈ w0 :: rest, w.start ≤ w.endTime)
    (hstart : s.start = w0.start)
    (hend : s.endTime = ((w0 :: rest).getLast (List.cons_ne_nil w0 rest)).endTime) :
    segOk s = true := by
  rw [segOk, hwords]
  simp only [List.all_eq_true, decide_eq_true_eq, Bool.and_eq_true]
  exact ⟨⟨fun w hw => by simp [hall w hw], hstart⟩, hend⟩

theorem segOk_of_mem_validSegments (segs : List Seg) (s : Seg)
    (hs : s ∈ validSegments segs) : segOk s = true := by
  rw [validSegments] at hs
  rcases List.mem_filterMap.mp hs with ⟨seg, _, hmk⟩
  rw [mkValidSeg] at hmk
  split at hmk
  · cases hmk
  · split at hmk
    · cases hmk
    · rename_i vw heq w0 rest hvw
      split at hmk
      · cases hmk
      · cases hmk
        refine segOk_construct _ w0 rest rfl ?_ rfl rfl
        intro w hw
        exact validWordsOf_le seg w (hvw ▸ hw)

theorem segOk_of_mem_finalValidate (l : List Seg) (s : Seg)
    (hs : s ∈ finalValidate l) : segOk s = true := by
  rw [finalValidate] at hs
  rcases List.mem_filterMap.mp hs with ⟨seg, _, hmk⟩
  split at hmk
  · cases hmk
  · rename_i w0 rest hvw
    split at hmk
    · cases hmk
    · cases hmk
      refine segOk_construct _ w0 rest rfl ?_ rfl rfl
      intro w hw
      have := List.mem_filter.mp (hvw ▸ hw)
      simpa using this.2

end LyricsProcessing

/-- C2 amended: for every input and every choice of the external text
functions and threshold, every segment returned by
`prepare_segments_for_karaoke` has a non-empty word list, every word
satisfies end ≥ start, and the segment's bounds equal the first word's start
and the last word's end. (The dropped conjuncts - segment end ≥ start, words
sorted and non-overlapping, words within the segment bounds - are refuted by
the counterexample.) -/
theorem C2_amended (fns : LyricsProcessing.TextFns) (threshold : ℚ)
    (segs : List Seg) (ol : Option (List String)) :
    (LyricsProcessing.prepare_segments_for_karaoke fns threshold segs ol).all
      LyricsProcessing.segOk = true := by
  rw [List.all_eq_true]
  intro s hs
  rw [LyricsProcessing.prepare_segments_for_karaoke.eq_def] at hs
  simp only [] at hs
  by_cases hv : LyricsProcessing.validSegments segs = []
  · rw [if_pos hv] at hs
    cases hs
  · rw [if_neg hv] at hs
    have hvalid : ∀ x ∈ LyricsProcessing.validSegments segs,
        LyricsProcessing.segOk x = true :=
      fun x hx => LyricsProcessing.segOk_of_mem_validSegments segs x hx
    rcases ol with _ | lines
    · exact hvalid s (mem_pySort.mp hs)
    · rcases lines with _ | ⟨l0, ls⟩
      · exact hvalid s (mem_pySort.mp hs)
      · simp only [] at hs
        by_cases hnd : LyricsProcessing.normRecognizedData fns
            (LyricsProcessing.validSegments segs) = []
        · rw [if_pos hnd] at hs
          exact hvalid s hs
        · rw [if_neg hnd] at hs
          by_cases hfin : LyricsProcessing.finalValidate
              (pySort LyricsProcessing.byStart
                (LyricsProcessing.alignOfficial fns threshold
                  (LyricsProcessing.normRecognizedData fns
                    (LyricsProcessing.validSegments segs)) (l0 :: ls))) = []
          · rw [if_pos hfin] at hs
            exact hvalid s (mem_pySort.mp hs)
          · rw [if_neg hfin] at hs
            exact LyricsProcessing.segOk_of_mem_finalValidate _ s hs

/-- C2 counterexample: with no official lyrics, a recognized segment whose
(individually valid) words are out of order is passed through with bounds
snapped to the first word's start (5) and the last word's end (2), so the
returned segment has end < start, its words are not sorted, and the first
word's interval [5, 6] lies outside the segment [5, 2]. -/
theorem C2_counterexample :
    LyricsProcessing.prepare_segments_for_karaoke
      ⟨fun s => s, fun _ => [], fun _ _ => 0, fun _ _ => 0⟩ 0
      [⟨0, 10, "a b", [⟨"a", 5, 6⟩, ⟨"b", 1, 2⟩], false, none⟩] none =
      [⟨5, 2, "a b", [⟨"a", 5, 6⟩, ⟨"b", 1, 2⟩], false, none⟩] ∧
    ((2 : ℚ) < 5) := by
  exact ⟨by decide, by norm_num⟩

/-!
## backend/services/genius_service.py

`GeniusService._score_hits` and `GeniusService._filter_candidates`. The
`_normalize_text` helper (unicodedata + regex) and rapidfuzz's `WRatio` are
function parameters; a hit is its title and artist (the other dict keys play
no role in ranking). `scored.sort(key=..., reverse=True)` is Python's stable
descending sort, modelled by `pySort` with the flipped comparison.
-/

namespace GeniusService

structure Hit where
  title : String
  artist : String
deriving DecidableEq, Repr

def MIN_ACCEPTABLE_SCORE : ℤ := 50
def MAX_CANDIDATES : ℕ := 7

/-- _score_hits (genius_service.py lines 70-88). -/
def score_hits (normalize : String → String) (wratio : String → String → ℚ)
    (hits : List Hit) (query_title query_artist : String) : List (ℤ × Hit) :=
  let title_norm := normalize query_title
  let artist_norm := normalize query_artist
  let scored := hits.map (fun hit =>
    let title_score := wratio (normalize hit.title) title_norm
    let artist_score :=
      if artist_norm ≠ "" then wratio (normalize hit.artist) artist_norm else 0
    (pythonRound (7/10 * title_score + 3/10 * artist_score), hit))
  pySort (fun a b => decide (b.1 ≤ a.1)) scored

/-- The loop of _filter_candidates (genius_service.py lines 92-98): break at
MAX_CANDIDATES, keep scores at or above MIN_ACCEPTABLE_SCORE. -/
def filterGo : List (ℤ × Hit) → List Hit → List Hit
  | [], candidates => candidates
  | (score, hit_data) :: t, candidates =>
    if MAX_CANDIDATES ≤ candidates.length then candidates
    else if MIN_ACCEPTABLE_SCORE ≤ score then filterGo t (candidates ++ [hit_data])
    else filterGo t candidates

/-- _filter_candidates (genius_service.py lines 90-104): the loop, then the
best-hit fallback when nothing reached the threshold. -/
def _filter_candidates (scored_hits : List (ℤ × Hit)) : List Hit :=
  let candidates := filterGo scored_hits []
  match scored_hits with
  | [] => candidates
  | p :: _ => if candidates = [] then [p.2] else candidates

/-- The per-hit score exactly as the claim words it:
round(0.7·WRatio(norm title, norm query title) +
0.3·WRatio(norm artist, norm query artist)). -/
def claimed_hit_score (normalize : String → String)
    (wratio : String → String → ℚ) (query_title query_artist : String)
    (h : Hit) : ℤ :=
  pythonRound (7/10 * wratio (normalize h.title) (normalize query_title) +
    3/10 * wratio (normalize h.artist) (normalize query_artist))

theorem filterGo_eq : ∀ (l : List (ℤ × Hit)) (acc : List Hit),
    acc.length ≤ 7 →
    filterGo l acc =
      acc ++ ((l.filter (fun p => decide (50 ≤ p.1))).take (7 - acc.length)).map
        Prod.snd := by
  intro l
  induction l with
  | nil => intro acc _; simp [filterGo]
  | cons p t ih =>
    intro acc hacc
    obtain ⟨score, hit_data⟩ := p
    rw [filterGo]
    by_cases hfull : MAX_CANDIDATES ≤ acc.length
    · rw [if_pos hfull]
      have h7 : acc.length = 7 := le_antisymm hacc hfull
      simp [h7]
    · rw [if_neg hfull]
      rw [MAX_CANDIDATES] at hfull
      push_neg at hfull
      by_cases hsc : MIN_ACCEPTABLE_SCORE ≤ score
      · rw [if_pos hsc]
        rw [ih (acc ++ [hit_data]) (by simp; omega)]
        have hkeep : decide ((50:ℤ) ≤ score) = true := by
          simpa [MIN_ACCEPTABLE_SCORE] using hsc
        simp only [List.filter_cons, hkeep, if_true]
        have hlen : 7 - acc.length = (7 - (acc ++ [hit_data]).length) + 1 := by
          simp; omega
        rw [hlen, List.take_succ_cons, List.map_cons]
        simp
      · rw [if_neg hsc]
        rw [ih acc hacc]
        have hdrop : decide ((50:ℤ) ≤ score) = false := by
          simpa [MIN_ACCEPTABLE_SCORE] using hsc
        simp only [List.filter_cons, hdrop]
        simp

end GeniusService

/-- C8: each hit is scored round(0.7*WRatio(normalized titles) +
0.3*WRatio(normalized artists)); the scored list is sorted in descending
score order; the hits at or above the floor of 50 are kept in that order,
capped at 7; and when no hit reaches the floor, the single highest-scoring
hit is kept. (Stated for any normalisation and any WRatio that scores 0
against an empty string, as rapidfuzz's WRatio does.) -/
theorem C8_ranking (normalize : String → String)
    (wratio : String → String → ℚ) (h0 : ∀ x, wratio x "" = 0)
    (hits : List GeniusService.Hit) (query_title query_artist : String) :
    (GeniusService.score_hits normalize wratio hits query_title query_artist).Perm
      (hits.map (fun h =>
        (GeniusService.claimed_hit_score normalize wratio query_title query_artist h, h))) ∧
    (GeniusService.score_hits normalize wratio hits query_title query_artist).Pairwise
      (fun a b => b.1 ≤ a.1) ∧
    (∀ scored, scored = GeniusService.score_hits normalize wratio hits query_title query_artist →
      ((scored.filter (fun p => decide (50 ≤ p.1))) ≠ [] →
        GeniusService._filter_candidates scored =
          ((scored.filter (fun p => decide (50 ≤ p.1))).take 7).map Prod.snd) ∧
      ((scored.filter (fun p => decide (50 ≤ p.1))) = [] → hits ≠ [] →
        ∃ best ∈ hits, GeniusService._filter_candidates scored = [best] ∧
          ∀ h' ∈ hits,
            GeniusService.claimed_hit_score normalize wratio query_title query_artist h' ≤
              GeniusService.claimed_hit_score normalize wratio query_title query_artist best)) := by
  have hfuneq : (fun (hit : GeniusService.Hit) =>
      (pythonRound (7/10 * wratio (normalize hit.title) (normalize query_title) +
        3/10 * (if normalize query_artist ≠ "" then
          wratio (normalize hit.artist) (normalize query_artist) else 0)), hit)) =
      (fun h => (GeniusService.claimed_hit_score normalize wratio query_title query_artist h, h)) := by
    funext hit
    by_cases ha : normalize query_artist = ""
    · simp [ha, GeniusService.claimed_hit_score, h0]
    · simp [ha, GeniusService.claimed_hit_score]
  have hperm : (GeniusService.score_hits normalize wratio hits query_title query_artist).Perm
      (hits.map (fun h =>
        (GeniusService.claimed_hit_score normalize wratio query_title query_artist h, h))) := by
    rw [GeniusService.score_hits]
    simp only []
    rw [hfuneq]
    exact pySort_perm _ _
  have hsorted : (GeniusService.score_hits normalize wratio hits query_title query_artist).Pairwise
      (fun a b => b.1 ≤ a.1) := by
    have := @pySort_pairwise (ℤ × GeniusService.Hit)
      (fun a b => decide (b.1 ≤ a.1))
      (fun a b c hab hbc => by
        simp only [decide_eq_true_eq] at *; exact le_trans hbc hab)
      (fun a b => by
        simp only [decide_eq_true_eq]
        rcases le_total a.1 b.1 with h | h
        · exact Or.inr h
        · exact Or.inl h)
      (hits.map (fun hit =>
        (pythonRound (7/10 * wratio (normalize hit.title) (normalize query_title) +
          3/10 * (if normalize query_artist ≠ "" then
            wratio (normalize hit.artist) (normalize query_artist) else 0)), hit)))
    rw [GeniusService.score_hits]
    simp only []
    exact (this.imp (fun hab => by simpa using hab))
  refine ⟨hperm, hsorted, ?_⟩
  intro scored hsc
  constructor
  · intro hne
    rcases hsc2 : scored with _ | ⟨p, t⟩
    · rw [hsc2] at hne; simp at hne
    · rw [hsc2] at hne
      rw [GeniusService._filter_candidates.eq_def]
      simp only []
      rw [GeniusService.filterGo_eq (p :: t) [] (by norm_num)]
      simp only [List.nil_append, List.length_nil, Nat.sub_zero]
      have hcand : List.map Prod.snd
          (List.take 7 (List.filter (fun q => decide (50 ≤ q.1)) (p :: t))) ≠ [] := by
        simp only [ne_eq, List.map_eq_nil_iff, List.take_eq_nil_iff]
        push_neg
        exact ⟨by norm_num, hne⟩
      rw [if_neg hcand]
  · intro hempty hhits
    rcases hsc2 : scored with _ | ⟨p, t⟩
    · exfalso
      rw [hsc2] at hsc
      have hlen := hperm.length_eq
      rw [← hsc] at hlen
      simp only [List.length_nil, List.length_map] at hlen
      exact hhits (List.length_eq_zero.mp hlen.symm)
    · rw [hsc2] at hempty
      rw [GeniusService._filter_candidates.eq_def]
      simp only []
      rw [GeniusService.filterGo_eq (p :: t) [] (by norm_num)]
      rw [hempty]
      simp only [List.nil_append, List.take_nil, List.map_nil, if_pos rfl]
      have hpmem : p ∈ GeniusService.score_hits normalize wratio hits query_title query_artist := by
        rw [← hsc, hsc2]; simp
      have hpmap : p ∈ hits.map (fun h =>
          (GeniusService.claimed_hit_score normalize wratio query_title query_artist h, h)) :=
        hperm.mem_iff.mp hpmem
      rcases List.mem_map.mp hpmap with ⟨best, hbest, hpeq⟩
      refine ⟨best, hbest, by rw [← hpeq]; simp, ?_⟩
      intro h' hh'
      have hmem : (GeniusService.claimed_hit_score normalize wratio query_title query_artist h', h') ∈
          scored := by
        rw [hsc]
        exact hperm.mem_iff.mpr (List.mem_map.mpr ⟨h', hh', rfl⟩)
      rw [hsc2] at hmem
      rcases List.mem_cons.mp hmem with heq | hmemt
      · rw [← hpeq] at heq
        have heq2 : GeniusService.claimed_hit_score normalize wratio query_title query_artist h' =
            GeniusService.claimed_hit_score normalize wratio query_title query_artist best :=
          congrArg Prod.fst heq
        omega
      · have hsorted2 := hsorted
        rw [← hsc, hsc2] at hsorted2
        have hle := (List.pairwise_cons.mp hsorted2).1 _ hmemt
        rw [← hpeq] at hle
        simpa using hle

/-- Witness for C8 at a concrete hit list and an exact-match scorer. -/
theorem C8_witness :
    (GeniusService.score_hits (fun s => s)
        (fun a b => if a = "" ∨ b = "" then 0 else 100)
        [⟨"t1", "a1"⟩, ⟨"t2", "a2"⟩] "t1" "a1").Perm
      (([⟨"t1", "a1"⟩, ⟨"t2", "a2"⟩] : List GeniusService.Hit).map (fun h =>
        (GeniusService.claimed_hit_score (fun s => s)
          (fun a b => if a = "" ∨ b = "" then 0 else 100) "t1" "a1" h, h))) :=
  (C8_ranking (fun s => s) (fun a b => if a = "" ∨ b = "" then 0 else 100)
    (fun x => by simp) [⟨"t1", "a1"⟩, ⟨"t2", "a2"⟩] "t1" "a1").1
